import Mathlib

/-!
The wngt2020 example driver (examples/wngt2020/main.cc)

A shallow embedding of the streaming translation driver: the device policy that
fixes the replica count, thread count, precision and batch budget, the
vocabulary export handed to the tokenizer, the reader and writer hooks, and the
run of `main` as a trace of effects.
-/

namespace Wngt2020

/-- A `std::string`: a sequence of `char`. -/
abbrev Str := List Char

/-- A token sequence (`std::vector<std::string>`). -/
abbrev TokenSequence := List Str

/-! ## Vocabulary export (main.cc lines 7-14) -/

/-- The part of `ctranslate2::Vocabulary` that `get_vocabulary_tokens` uses. -/
structure Vocabulary where
  size : Nat
  to_token : Nat → Str

/-- The `for (size_t i = 0; i < size; ++i) tokens.emplace_back(vocabulary.to_token(i))`
loop: `remaining` is `size - i`. -/
def get_vocabulary_tokens_loop (vocabulary : Vocabulary) :
    Nat → Nat → List Str → List Str
  | 0, _, tokens => tokens
  | remaining + 1, i, tokens =>
    get_vocabulary_tokens_loop vocabulary remaining (i + 1) (tokens ++ [vocabulary.to_token i])

/-- The function `get_vocabulary_tokens` of main.cc. -/
def get_vocabulary_tokens (vocabulary : Vocabulary) : List Str :=
  get_vocabulary_tokens_loop vocabulary vocabulary.size 0 []

/-! ## Device policy (main.cc lines 19-39) -/

/-- The two values of `ctranslate2::Device`. -/
inductive Device where
  | CPU
  | CUDA
  deriving DecidableEq

/-- The values of `ctranslate2::ComputeType` that main.cc names. -/
inductive ComputeType where
  | INT8
  | FLOAT16
  deriving DecidableEq

/-- The width of `size_t`. -/
def SIZE_MAX_succ : Nat := 2 ^ 64

/-- The largest `int`, the type of `num_cores`. -/
def INT_MAX : Int := 2147483647

/-- Conversion of an `int` to `size_t` (reduction modulo `2 ^ 64`). -/
def int_to_size_t (n : Int) : Nat := (n % (SIZE_MAX_succ : Int)).toNat

/-- The four locals that the branch on the device and on `num_cores` sets. -/
structure ExecutionProfile where
  compute_type : ComputeType
  num_threads_per_replica : Nat
  num_replicas : Nat
  max_batch_size : Nat
  deriving DecidableEq

/-- Lines 25-39 of `main`: the initial values of the locals and the three-way
branch. `num_cores / 2` is `int` division (truncation towards zero) and the
quotient is converted to `size_t`. -/
def select_profile (device : Device) (num_cores : Int) : ExecutionProfile :=
  let compute_type := ComputeType.INT8
  let num_threads_per_replica := 1
  if device = Device.CUDA then
    { compute_type := ComputeType.FLOAT16
      num_threads_per_replica := num_threads_per_replica
      num_replicas := 1
      max_batch_size := 6000 }
  else if num_cores = 1 then
    { compute_type := compute_type
      num_threads_per_replica := num_threads_per_replica
      num_replicas := 1
      max_batch_size := 512 }
  else
    { compute_type := compute_type
      num_threads_per_replica := num_threads_per_replica
      num_replicas := int_to_size_t (Int.tdiv num_cores 2)
      max_batch_size := 256 }

/-- The values of `ctranslate2::BatchType`. -/
inductive BatchType where
  | Examples
  | Tokens
  deriving DecidableEq

/-- The fields of `ctranslate2::TranslationOptions` that `main` sets. -/
structure TranslationOptions where
  beam_size : Nat
  max_decoding_length : Nat
  max_batch_size : Nat
  batch_type : BatchType
  use_vmap : Bool
  return_scores : Bool
  deriving DecidableEq

/-- Lines 68-74 of `main`. -/
def make_options (max_batch_size : Nat) : TranslationOptions :=
  { beam_size := 1
    max_decoding_length := 150
    max_batch_size := max_batch_size
    batch_type := BatchType.Tokens
    use_vmap := true
    return_scores := false }

/-! ## Unknown-token normalisation (main.cc line 65) -/

/-- The scanner behind `std::regex_replace(text, std::regex(pat), fmt)` for a
non-empty pattern `pat` made of ordinary characters only and a format `fmt` without `$`:
the text is read left to right; where `pat` starts at the current position the
match is replaced by `fmt` and the scan resumes after the match, otherwise the
character is copied. The first argument counts the characters of the current
match that are still to be skipped. -/
def regex_replace_scan (pat fmt : Str) : Nat → Str → Str
  | _, [] => []
  | skip + 1, _ :: rest => regex_replace_scan pat fmt skip rest
  | 0, c :: rest =>
    if pat.isPrefixOf (c :: rest) then
      fmt ++ regex_replace_scan pat fmt (pat.length - 1) rest
    else
      c :: regex_replace_scan pat fmt 0 rest

/-- The call `std::regex_replace(text, std::regex(pat), fmt)` for a literal pattern. -/
def regex_replace (text pat fmt : Str) : Str :=
  regex_replace_scan pat fmt 0 text

/-- The raw unknown-token marker, `"<unk>"`. -/
def unk_pattern : Str := ['<', 'u', 'n', 'k', '>']

/-- The display marker, `"UNK"`. -/
def unk_display : Str := ['U', 'N', 'K']

/-- The text the writer hook sends to the stream before the newline:
`std::regex_replace(text, std::regex("<unk>"), "UNK")`. -/
def normalize (text : Str) : Str :=
  regex_replace text unk_pattern unk_display

/-! ## Streams and hooks (main.cc lines 53-66, 76-77) -/

/-- A `std::ifstream`: whether the file could be opened, the records `std::getline`
can still extract, and whether what follows the last record is a read error
(`bad = true`) or the end of the file. -/
structure IStream where
  is_open : Bool
  lines : List Str
  bad : Bool
  deriving DecidableEq

/-- The call `std::getline(in, line)` with its conversion to `bool`: `none` is a
stream that tests false afterwards (not open, end of file, or read error; no
exception mask is set, so none of them throws). -/
def getline (s : IStream) : Option (Str × IStream) :=
  if s.is_open then
    match s.lines with
    | [] => none
    | line :: rest => some (line, { s with lines := rest })
  else
    none

/-- A `std::ofstream`, as the sequence of records written to it. -/
abbrev OStream := List Str

/-- The two operations of the loaded `sentencepiece::SentencePieceProcessor`
that the hooks call. -/
structure SentencePieceProcessor where
  Encode : Str → TokenSequence
  Decode : TokenSequence → Str

/-- The part of `ctranslate2::TranslationResult` that the writer reads. -/
structure TranslationResult where
  output : TokenSequence
  deriving DecidableEq

/-- The `reader` lambda: `none` is `return false`, `some` is `return true` with
the tokens stored through the reference. -/
def reader (sp_processor : SentencePieceProcessor) (input : IStream) :
    Option (TokenSequence × IStream) :=
  match getline input with
  | none => none
  | some (line, input') => some (sp_processor.Encode line, input')

/-- The `writer` lambda: one record, the normalised decoding followed by a newline. -/
def writer (sp_processor : SentencePieceProcessor) (out : OStream)
    (result : TranslationResult) : OStream :=
  out ++ [normalize (sp_processor.Decode result.output) ++ ['\n']]

/-! ## The stream pipeline -/

/-- Modelled from the spec: a Batch (3, data model), a type of the missing
`TranslatorPool`: token sequences tagged with the index of the line they come from. -/
abbrev Batch := List (Nat × TokenSequence)

/-- Modelled from the spec: the accumulated size of a batch (3 and 4.4 step 3),
missing with `TranslatorPool::consume_stream`: a sequence count or a token
count, whichever budget is configured. -/
def batch_size : BatchType → Batch → Nat
  | BatchType.Examples, batch => batch.length
  | BatchType.Tokens, batch => (batch.map fun e => e.2.length).sum

/-- Modelled from the spec: what the missing `TranslatorPool::consume_stream` is
called on: the pool (its replica count and the engine behind it, 4.3) and the
arguments of the call on line 78 of main.cc. -/
structure Pipeline where
  replicas : Nat
  translate : TranslationOptions → TokenSequence → TranslationResult
  threshold : Nat
  options : TranslationOptions
  reader : IStream → Option (TokenSequence × IStream)
  writer : OStream → TranslationResult → OStream

/-- Modelled from the spec: the state of a run of the missing
`TranslatorPool::consume_stream` (4.4): the input and whether its end has been
reached, the index of the next line, the batch being accumulated, the batches
in flight in submission order, the results buffered by line index, the index of
the next line to write, and the output. -/
structure PipelineState where
  input : IStream
  at_end : Bool
  next_index : Nat
  current : Batch
  in_flight : List Batch
  buffer : List (Nat × TranslationResult)
  written : Nat
  output : OStream

/-- Removal of the element at a position of a list. -/
def take_out {α : Type} : Nat → List α → Option (α × List α)
  | _, [] => none
  | 0, x :: xs => some (x, xs)
  | j + 1, x :: xs =>
    match take_out j xs with
    | none => none
    | some (y, rest) => some (y, x :: rest)

/-- Removal of the first buffered result keyed by a line index. -/
def take_index {α : Type} (i : Nat) : List (Nat × α) → Option (α × List (Nat × α))
  | [] => none
  | e :: es =>
    if e.1 = i then some (e.2, es)
    else
      match take_index i es with
      | none => none
      | some (r, rest) => some (r, e :: rest)

/-- Modelled from the spec: the submission of the current batch to the pool
(4.4 step 3), missing with `TranslatorPool::consume_stream`: the batch joins the
in-flight batches and a new empty batch is started. -/
def submit (st : PipelineState) : PipelineState :=
  { st with in_flight := st.in_flight ++ [st.current], current := [] }

/-- Modelled from the spec: one turn of the reading loop of
`TranslatorPool::consume_stream` (4.4 steps 1-3), which is not among the
sources: the reader hook is asked for the next line; a line is tagged with its
index and joins the current batch, which is submitted once its size reaches the
threshold; at the end of the input the partial batch is submitted. -/
def read_step (p : Pipeline) (st : PipelineState) : PipelineState :=
  if st.at_end then st
  else
    match p.reader st.input with
    | none =>
      let st' := { st with at_end := true }
      if st'.current.isEmpty then st' else submit st'
    | some (tokens, input') =>
      let st' := { st with
        input := input'
        next_index := st.next_index + 1
        current := st.current ++ [(st.next_index, tokens)] }
      if p.threshold ≤ batch_size p.options.batch_type st'.current then submit st' else st'

/-- Modelled from the spec: the flush of buffered results (4.4 step 5), missing
with `TranslatorPool::consume_stream`: results are handed to the writer hook in
ascending line index, and the result of line `i + 1` waits for that of line `i`. -/
def flush (p : Pipeline) : Nat → PipelineState → PipelineState
  | 0, st => st
  | fuel + 1, st =>
    match take_index st.written st.buffer with
    | none => st
    | some (result, rest) =>
      flush p fuel { st with
        buffer := rest
        written := st.written + 1
        output := p.writer st.output result }

/-- Modelled from the spec: the completion of one batch (4.3 and 4.4 step 4),
missing with `TranslatorPool`: batches are handed to the replicas in submission
order, one batch per replica, so the replicas hold the oldest
`min replicas (number in flight)` batches; any of these may complete next, here
the one selected by `k`. Its results, index-aligned with the batch, are buffered
by line index and the buffer is flushed. -/
def complete_step (p : Pipeline) (k : Nat) (st : PipelineState) : PipelineState :=
  let busy := min p.replicas st.in_flight.length
  if busy = 0 then st
  else
    match take_out (k % busy) st.in_flight with
    | none => st
    | some (batch, rest) =>
      let results := batch.map fun e => (e.1, p.translate p.options e.2)
      let buffer := st.buffer ++ results
      flush p buffer.length { st with in_flight := rest, buffer := buffer }

/-- Modelled from the spec: an interleaving of reading and batch completion (5,
scheduling model), which `TranslatorPool` leaves to the threads of the replicas:
`none` lets the reading loop take a turn, `some k` lets a batch complete. -/
def scripted (p : Pipeline) : List (Option Nat) → PipelineState → PipelineState
  | [], st => st
  | none :: schedule, st => scripted p schedule (read_step p st)
  | some k :: schedule, st => scripted p schedule (complete_step p k st)

/-- Modelled from the spec: the reading loop run to the end of the input
(4.4 step 1), missing with `TranslatorPool::consume_stream`. -/
def read_all (p : Pipeline) : Nat → PipelineState → PipelineState
  | 0, st => st
  | fuel + 1, st => if st.at_end then st else read_all p fuel (read_step p st)

/-- Modelled from the spec: the draining state (4.4, state machine), missing
with `TranslatorPool::consume_stream`: in-flight batches complete one by one. -/
def drain (p : Pipeline) : Nat → PipelineState → PipelineState
  | 0, st => st
  | fuel + 1, st => drain p fuel (complete_step p 0 st)

/-- Modelled from the spec: the state in which a run of
`TranslatorPool::consume_stream`, which is not among the sources, ends or
blocks, after StreamPipeline.run (4.4) and ReplicaPool (4.3). The schedule fixes
an arbitrary interleaving of reads and out-of-order batch completions; after it
the input is read to its end and the pool is drained. The ceiling on in-flight
sequences of 4.3 is not an argument of the call in main.cc and only delays
reads, so every run under a ceiling is one of the runs of this model. -/
def run_pipeline (p : Pipeline) (schedule : List (Option Nat)) (input : IStream)
    (out : OStream) : PipelineState :=
  let st0 : PipelineState :=
    { input := input, at_end := false, next_index := 0, current := [], in_flight := [],
      buffer := [], written := 0, output := out }
  let st1 := scripted p schedule st0
  let st2 := read_all p (st1.input.lines.length + 1) st1
  drain p st2.in_flight.length st2

/-- Modelled from the spec: the terminal state Done of the pipeline (4.4 step 6),
missing with `TranslatorPool::consume_stream`: the end of the input has been
reached, every submitted batch has completed and every line read has been
written. -/
def finished (st : PipelineState) : Bool :=
  st.at_end && st.in_flight.isEmpty && (st.written == st.next_index)

/-- Modelled from the spec: the call `pool.consume_stream(in, out, threshold,
options, reader, writer)`, missing from the sources: the two streams after the
call, or `none` for a call that never returns. -/
def consume_stream (p : Pipeline) (schedule : List (Option Nat)) (input : IStream)
    (out : OStream) : Option (IStream × OStream) :=
  let st := run_pipeline p schedule input out
  if finished st then some (st.input, st.output) else none

/-! ## The run of `main` -/

/-- The exceptions `main` throws. -/
inductive Exception where
  | invalid_argument (what : String)
  | runtime_error (what : String)
  deriving DecidableEq

/-- The effects of `main`, in program order. -/
inductive Event where
  | load_model (device : Device) (compute_type : ComputeType)
  | create_pool (num_replicas num_threads_per_replica : Nat)
  | sp_load
  | sp_set_vocabulary (tokens : List Str)
  | open_input
  | open_output
  | consume_stream (read_batch_size : Nat) (options : TranslationOptions)
  | flush_output
  deriving DecidableEq

/-- How a run ends: an exception leaves `main`, `consume_stream` never returns,
or `main` returns 0. -/
inductive Outcome where
  | raised (e : Exception)
  | blocked
  | returned
  deriving DecidableEq

/-- What a run leaves behind: its effects, how it ended, and the records written
to the output file (`none` when the file was never opened). -/
structure Run where
  trace : List Event
  outcome : Outcome
  out_file : Option OStream

/-- What `main` finds outside itself: the device that `str_to_device("auto")`
resolves to, the source vocabulary of the model under `/model`, the statuses of
the two tokenizer calls, the loaded tokenizer, the engine, the interleaving the
pool runs under, and the stream that opening `in_file` gives. -/
structure World where
  device : Device
  source_vocabulary : Vocabulary
  sp_load_ok : Bool
  sp_set_vocabulary_ok : List Str → Bool
  sp_processor : SentencePieceProcessor
  translate : TranslationOptions → TokenSequence → TranslationResult
  schedule : List (Option Nat)
  in_file : IStream

/-- The function `main` of main.cc, from line 19 on, with `num_cores` the value
of `std::stoi(argv[3])`. -/
def main (w : World) (num_cores : Int) : Run :=
  let profile := select_profile w.device num_cores
  let t1 := [Event.load_model w.device profile.compute_type,
             Event.create_pool profile.num_replicas profile.num_threads_per_replica,
             Event.sp_load]
  if !w.sp_load_ok then
    { trace := t1
      outcome := Outcome.raised
        (Exception.invalid_argument "Unable to open SentencePiece model /model/sp.model")
      out_file := none }
  else
    let tokens := get_vocabulary_tokens w.source_vocabulary
    let t2 := t1 ++ [Event.sp_set_vocabulary tokens]
    if !w.sp_set_vocabulary_ok tokens then
      { trace := t2
        outcome := Outcome.raised
          (Exception.runtime_error "Failed to set the SentencePiece vocabulary")
        out_file := none }
    else
      let options := make_options profile.max_batch_size
      let read_batch_size := (profile.max_batch_size * 8) % SIZE_MAX_succ
      let pool : Pipeline :=
        { replicas := profile.num_replicas
          translate := w.translate
          threshold := read_batch_size
          options := options
          reader := reader w.sp_processor
          writer := writer w.sp_processor }
      let t3 := t2 ++ [Event.open_input, Event.open_output,
                       Event.consume_stream read_batch_size options]
      match consume_stream pool w.schedule w.in_file [] with
      | none =>
        { trace := t3
          outcome := Outcome.blocked
          out_file := some (run_pipeline pool w.schedule w.in_file []).output }
      | some (_, out) =>
        { trace := t3 ++ [Event.flush_output], outcome := Outcome.returned, out_file := some out }

/-- The text `s0 ++ sep ++ s1 ++ ... ++ sep ++ sk` for the pieces `s0` and
`[s1, ..., sk]`. -/
def interleave (sep : Str) : Str → List Str → Str
  | s0, [] => s0
  | s0, s1 :: rest => s0 ++ sep ++ interleave sep s1 rest

/-! ## What a run of the pipeline maintains -/

/-- The lines the reader hook can obtain from a stream: none when the stream is
not open, otherwise those before the end of the file or the read error. -/
def readable (s : IStream) : List Str :=
  if s.is_open then s.lines else []

/-- The record the program owes for an input line: the normalised decoding of
the translation of the encoding of the line, and the newline. -/
def output_line (sp_processor : SentencePieceProcessor)
    (translate : TranslationOptions → TokenSequence → TranslationResult)
    (options : TranslationOptions) (line : Str) : Str :=
  normalize (sp_processor.Decode (translate options (sp_processor.Encode line)).output) ++ ['\n']

/-- A tagged token sequence that is the encoding of the line of its index. -/
def Encoded (sp_processor : SentencePieceProcessor) (all : List Str) (bound : Nat)
    (e : Nat × TokenSequence) : Prop :=
  e.1 < bound ∧ ∃ line, all[e.1]? = some line ∧ e.2 = sp_processor.Encode line

/-- A buffered result that is the translation of the line of its index. -/
def Translated (sp_processor : SentencePieceProcessor) (p : Pipeline) (all : List Str)
    (bound : Nat) (e : Nat × TranslationResult) : Prop :=
  e.1 < bound ∧ ∃ line, all[e.1]? = some line
    ∧ e.2 = p.translate p.options (sp_processor.Encode line)

/-- The invariant of a run started on `input0` with `out0` already written. -/
structure Invariant (sp_processor : SentencePieceProcessor) (p : Pipeline) (input0 : IStream)
    (out0 : OStream) (st : PipelineState) : Prop where
  is_open_eq : st.input.is_open = input0.is_open
  lines_eq : st.input.lines = input0.lines.drop st.next_index
  at_end_read : st.at_end = true → (readable input0).length ≤ st.next_index ∧ st.current = []
  current_ok : ∀ e ∈ st.current, Encoded sp_processor (readable input0) st.next_index e
  in_flight_ok : ∀ b ∈ st.in_flight, ∀ e ∈ b,
    Encoded sp_processor (readable input0) st.next_index e
  buffer_ok : ∀ e ∈ st.buffer, Translated sp_processor p (readable input0) st.next_index e
  cover : ∀ i, st.written ≤ i → i < st.next_index →
    (∃ e ∈ st.current, e.1 = i) ∨ (∃ b ∈ st.in_flight, ∃ e ∈ b, e.1 = i)
      ∨ (∃ e ∈ st.buffer, e.1 = i)
  written_le : st.written ≤ st.next_index
  output_eq : st.output = out0
    ++ ((readable input0).take st.written).map (output_line sp_processor p.translate p.options)

/-- No buffered result is waiting for its turn: the next line to write is not
in the buffer. -/
def Flushed (st : PipelineState) : Prop :=
  ∀ e ∈ st.buffer, e.1 ≠ st.written

/-! ## Sample worlds -/

/-- A tokenizer that splits a line into its characters and joins them back. -/
def char_tokenizer : SentencePieceProcessor :=
  { Encode := fun line => line.map fun c => [c]
    Decode := fun tokens => tokens.flatten }

/-- A world with a two-token vocabulary, the character tokenizer and an engine
that reverses the token sequence. -/
def sample_world (device : Device) (sp_load_ok set_ok : Bool)
    (schedule : List (Option Nat)) (in_file : IStream) : World :=
  { device := device
    source_vocabulary := ⟨2, fun i => [Char.ofNat (97 + i)]⟩
    sp_load_ok := sp_load_ok
    sp_set_vocabulary_ok := fun _ => set_ok
    sp_processor := char_tokenizer
    translate := fun _ tokens => ⟨tokens.reverse⟩
    schedule := schedule
    in_file := in_file }

/-! ## Vocabulary export -/

theorem get_vocabulary_tokens_loop_eq (vocabulary : Vocabulary) (remaining i : Nat)
    (tokens : List Str) :
    get_vocabulary_tokens_loop vocabulary remaining i tokens
      = tokens ++ (List.range' i remaining).map vocabulary.to_token := by
  induction remaining generalizing i tokens with
  | zero => simp [get_vocabulary_tokens_loop]
  | succ n ih => simp [get_vocabulary_tokens_loop, ih, List.range']

theorem get_vocabulary_tokens_eq (vocabulary : Vocabulary) :
    get_vocabulary_tokens vocabulary = (List.range vocabulary.size).map vocabulary.to_token := by
  simp [get_vocabulary_tokens, get_vocabulary_tokens_loop_eq, List.range_eq_range']

/-- C9: `get_vocabulary_tokens v` has exactly `v.size` elements and its `i`-th
element is `v.to_token i` for every `i < v.size`; an empty vocabulary gives the
empty list. -/
theorem get_vocabulary_tokens_index_order (vocabulary : Vocabulary) :
    (get_vocabulary_tokens vocabulary).length = vocabulary.size
      ∧ (∀ i, i < vocabulary.size →
          (get_vocabulary_tokens vocabulary)[i]? = some (vocabulary.to_token i))
      ∧ (vocabulary.size = 0 → get_vocabulary_tokens vocabulary = []) := by
  refine ⟨by simp [get_vocabulary_tokens_eq], ?_, ?_⟩
  · intro i hi
    simp [get_vocabulary_tokens_eq, List.getElem?_map, List.getElem?_range hi]
  · intro h
    simp [get_vocabulary_tokens_eq, h]

/-- C9 at a vocabulary of three tokens: index 2 gives the third token. -/
theorem get_vocabulary_tokens_index_order_witness :
    (2 < 3 ∧ (get_vocabulary_tokens ⟨3, fun i => [Char.ofNat (97 + i)]⟩)[2]? = some ['c'])
      ∧ get_vocabulary_tokens ⟨0, fun _ => []⟩ = [] :=
  ⟨⟨by decide,
    (get_vocabulary_tokens_index_order ⟨3, fun i => [Char.ofNat (97 + i)]⟩).2.1 2 (by decide)⟩,
   (get_vocabulary_tokens_index_order ⟨0, fun _ => []⟩).2.2 rfl⟩

/-! ## Device policy -/

theorem int_to_size_t_of_small (n : Int) (h0 : 0 ≤ n) (h1 : n ≤ INT_MAX) :
    int_to_size_t n = n.toNat := by
  unfold int_to_size_t SIZE_MAX_succ
  unfold INT_MAX at h1
  rw [Int.emod_eq_of_lt h0 (by norm_num; omega)]

/-- C3: on a CPU device the replica count is 1 for one core and
`floor (core_count / 2)` from two cores on (4 for 8 cores, 1 for 3 cores), so it
is at least 1 for every core count from 1 on. -/
theorem cpu_replica_count (num_cores : Int) (h1 : 1 ≤ num_cores) (hmax : num_cores ≤ INT_MAX) :
    (num_cores = 1 → (select_profile Device.CPU num_cores).num_replicas = 1)
      ∧ (2 ≤ num_cores →
          (select_profile Device.CPU num_cores).num_replicas = num_cores.toNat / 2)
      ∧ (select_profile Device.CPU 8).num_replicas = 4
      ∧ (select_profile Device.CPU 3).num_replicas = 1
      ∧ 1 ≤ (select_profile Device.CPU num_cores).num_replicas := by
  have hmulti : 2 ≤ num_cores →
      (select_profile Device.CPU num_cores).num_replicas = num_cores.toNat / 2 := by
    intro h2
    have hne : num_cores ≠ 1 := by omega
    have hq0 : 0 ≤ Int.tdiv num_cores 2 := Int.tdiv_nonneg (by omega) (by decide)
    have hq : Int.tdiv num_cores 2 = num_cores / 2 :=
      Int.tdiv_eq_ediv (by omega) (by decide)
    have hq1 : Int.tdiv num_cores 2 ≤ INT_MAX := by
      rw [hq]; unfold INT_MAX at *; omega
    simp only [select_profile, hne, if_false, reduceCtorEq]
    rw [int_to_size_t_of_small _ hq0 hq1, hq]
    omega
  refine ⟨?_, hmulti, by decide, by decide, ?_⟩
  · intro h; subst h; decide
  · rcases (by omega : 2 ≤ num_cores ∨ num_cores = 1) with h | h
    · rw [hmulti h]; omega
    · subst h; decide

/-- C3 at 8 cores: 4 replicas. -/
theorem cpu_replica_count_witness :
    (1 : Int) ≤ 8 ∧ (8 : Int) ≤ INT_MAX ∧ 1 ≤ (select_profile Device.CPU 8).num_replicas :=
  ⟨by decide, by decide, (cpu_replica_count 8 (by decide) (by decide)).2.2.2.2⟩

/-- C4 as stated fails: with 8 cores on a CPU the pool receives 1 thread per
replica, not 2. -/
theorem cpu_threads_not_two :
    ¬ ((select_profile Device.CPU 8).num_threads_per_replica = 2) := by
  decide

/-- C5: on the accelerator every core count gives the same profile: 1 replica,
FLOAT16, batch budget 6000, and 6000 is the `max_batch_size` of the options. -/
theorem cuda_profile (num_cores other : Int) :
    select_profile Device.CUDA num_cores =
        { compute_type := ComputeType.FLOAT16, num_threads_per_replica := 1,
          num_replicas := 1, max_batch_size := 6000 }
      ∧ (make_options (select_profile Device.CUDA num_cores).max_batch_size).max_batch_size = 6000
      ∧ select_profile Device.CUDA num_cores = select_profile Device.CUDA other := by
  simp [select_profile, make_options]

/-! ## The effects of `main` -/

theorem main_trace_start (w : World) (num_cores : Int) :
    ∃ tail, (main w num_cores).trace =
      Event.load_model w.device (select_profile w.device num_cores).compute_type
        :: Event.create_pool (select_profile w.device num_cores).num_replicas
            (select_profile w.device num_cores).num_threads_per_replica
        :: Event.sp_load :: tail := by
  unfold main
  by_cases h1 : w.sp_load_ok = true
  · by_cases h2 : w.sp_set_vocabulary_ok (get_vocabulary_tokens w.source_vocabulary) = true
    · simp only [h1, h2, Bool.not_true, Bool.false_eq_true, if_false]
      split <;> exact ⟨_, rfl⟩
    · simp only [h1, h2, Bool.not_true, Bool.false_eq_true, if_false]
      exact ⟨_, rfl⟩
  · simp only [h1]
    exact ⟨_, rfl⟩

/-- C4, amended: the threads-per-replica value handed to the pool is 1 for
every device and every core count, 1 core and 8 cores alike. -/
theorem threads_per_replica_is_one (w : World) (num_cores : Int) :
    (select_profile w.device num_cores).num_threads_per_replica = 1
      ∧ (main w num_cores).trace[1]? =
          some (Event.create_pool (select_profile w.device num_cores).num_replicas 1)
      ∧ (select_profile Device.CPU 1).num_threads_per_replica = 1
      ∧ (select_profile Device.CPU 8).num_threads_per_replica = 1 := by
  have h : (select_profile w.device num_cores).num_threads_per_replica = 1 := by
    unfold select_profile
    split
    · rfl
    · split <;> rfl
  refine ⟨h, ?_, by decide, by decide⟩
  obtain ⟨tail, ht⟩ := main_trace_start w num_cores
  rw [ht, h]
  rfl

/-- C8: when loading the tokenizer model fails, or setting its vocabulary
fails, `main` raises an exception at startup: neither stream is opened,
`consume_stream` (the only caller of the reader hook) is never called, and no
output exists. -/
theorem tokenizer_failure_stops_before_streaming (w : World) (num_cores : Int)
    (h : w.sp_load_ok = false
      ∨ w.sp_set_vocabulary_ok (get_vocabulary_tokens w.source_vocabulary) = false) :
    (∃ e, (main w num_cores).outcome = Outcome.raised e)
      ∧ Event.open_input ∉ (main w num_cores).trace
      ∧ Event.open_output ∉ (main w num_cores).trace
      ∧ (∀ size options, Event.consume_stream size options ∉ (main w num_cores).trace)
      ∧ (main w num_cores).out_file = none := by
  unfold main
  by_cases h1 : w.sp_load_ok = true
  · have h2 : w.sp_set_vocabulary_ok (get_vocabulary_tokens w.source_vocabulary) = false := by
      rcases h with h | h
      · rw [h1] at h; exact absurd h (by decide)
      · exact h
    simp [h1, h2]
  · simp [h1]

/-- C8 in the sample world, once with a tokenizer model that does not load and
once with a vocabulary that is refused. -/
theorem tokenizer_failure_stops_before_streaming_witness :
    (main (sample_world Device.CPU false true [] ⟨true, [['a']], false⟩) 4).out_file = none
      ∧ (main (sample_world Device.CPU true false [] ⟨true, [['a']], false⟩) 4).out_file = none :=
  ⟨(tokenizer_failure_stops_before_streaming
      (sample_world Device.CPU false true [] ⟨true, [['a']], false⟩) 4 (Or.inl rfl)).2.2.2.2,
   (tokenizer_failure_stops_before_streaming
      (sample_world Device.CPU true false [] ⟨true, [['a']], false⟩) 4 (Or.inr rfl)).2.2.2.2⟩

/-- C6 as stated fails: with 0 cores on a CPU `main` raises nothing; it loads
the model, builds a pool of 0 replicas, opens both streams and returns; with -4
cores the first thing the run does is again to load the model. -/
theorem zero_cores_not_rejected :
    (main (sample_world Device.CPU true true [] ⟨true, [], false⟩) 0).outcome = Outcome.returned
      ∧ (main (sample_world Device.CPU true true [] ⟨true, [], false⟩) 0).trace =
          [Event.load_model Device.CPU ComputeType.INT8, Event.create_pool 0 1, Event.sp_load,
           Event.sp_set_vocabulary [['a'], ['b']], Event.open_input, Event.open_output,
           Event.consume_stream 2048 (make_options 256), Event.flush_output]
      ∧ (main (sample_world Device.CPU true true [] ⟨true, [], false⟩) (-4)).trace.head?
          = some (Event.load_model Device.CPU ComputeType.INT8) := by
  decide

/-- C6, amended: for every core count `≤ 0` on a CPU nothing checks the core
count before the first effect of `main`, which is to load the model; at 0 cores
the replica count computed is 0, the pool is built with it and one thread, and
with a tokenizer that initialises both streams are opened and `consume_stream`
is called, nothing being raised. What a negative core count makes of the
replica count is left open. -/
theorem nonpositive_cores_reach_model_load (w : World) (num_cores : Int)
    (hdev : w.device = Device.CPU) (hcores : num_cores ≤ 0) :
    (main w num_cores).trace.head? = some (Event.load_model Device.CPU ComputeType.INT8)
      ∧ (num_cores = 0 →
          (main w num_cores).trace.take 2 =
              [Event.load_model Device.CPU ComputeType.INT8, Event.create_pool 0 1]
            ∧ (w.sp_load_ok = true →
                w.sp_set_vocabulary_ok (get_vocabulary_tokens w.source_vocabulary) = true →
                Event.open_input ∈ (main w num_cores).trace
                  ∧ Event.open_output ∈ (main w num_cores).trace
                  ∧ Event.consume_stream 2048 (make_options 256) ∈ (main w num_cores).trace
                  ∧ ∀ e, (main w num_cores).outcome ≠ Outcome.raised e)) := by
  have hne : num_cores ≠ 1 := by omega
  have hp : select_profile w.device num_cores =
      { compute_type := ComputeType.INT8, num_threads_per_replica := 1,
        num_replicas := int_to_size_t (Int.tdiv num_cores 2), max_batch_size := 256 } := by
    simp [select_profile, hdev, hne]
  obtain ⟨tail, ht⟩ := main_trace_start w num_cores
  refine ⟨?_, ?_⟩
  · rw [ht, hp, hdev]
    rfl
  · intro hzero
    have hrep : int_to_size_t (Int.tdiv num_cores 2) = 0 := by rw [hzero]; decide
    rw [hrep] at hp
    constructor
    · rw [ht, hp, hdev]
      rfl
    · intro h1 h2
      unfold main
      simp only [h1, h2, hp, Bool.not_true, Bool.false_eq_true, if_false]
      have hsz : (256 * 8) % SIZE_MAX_succ = 2048 := by decide
      rw [hsz]
      split <;> simp

/-- C6, amended, at 0 cores, where the pool is built with 0 replicas and the
input is opened, and at -4 cores, where the model is loaded first. -/
theorem nonpositive_cores_reach_model_load_witness :
    ((0 : Int) ≤ 0
      ∧ (main (sample_world Device.CPU true true [] ⟨true, [['a']], false⟩) 0).trace.take 2 =
          [Event.load_model Device.CPU ComputeType.INT8, Event.create_pool 0 1]
      ∧ Event.open_input
          ∈ (main (sample_world Device.CPU true true [] ⟨true, [['a']], false⟩) 0).trace)
      ∧ ((-4 : Int) ≤ 0
        ∧ (main (sample_world Device.CPU true true [] ⟨true, [['a']], false⟩) (-4)).trace.head?
            = some (Event.load_model Device.CPU ComputeType.INT8)) :=
  ⟨⟨by decide,
    ((nonpositive_cores_reach_model_load
        (sample_world Device.CPU true true [] ⟨true, [['a']], false⟩) 0 rfl (by decide)).2 rfl).1,
    (((nonpositive_cores_reach_model_load
        (sample_world Device.CPU true true [] ⟨true, [['a']], false⟩) 0 rfl (by decide)).2 rfl).2
      rfl rfl).1⟩,
   ⟨by decide,
    (nonpositive_cores_reach_model_load
        (sample_world Device.CPU true true [] ⟨true, [['a']], false⟩) (-4) rfl (by decide)).1⟩⟩

/-! ## Unknown-token normalisation -/

theorem regex_replace_scan_skip (pat fmt : Str) (skip : Nat) (text : Str) :
    regex_replace_scan pat fmt skip text = regex_replace_scan pat fmt 0 (text.drop skip) := by
  induction text generalizing skip with
  | nil => cases skip <;> simp [regex_replace_scan]
  | cons c rest ih =>
    cases skip with
    | zero => simp
    | succ k => simp [regex_replace_scan, ih k]

theorem normalize_nil : normalize [] = [] := by
  simp [normalize, regex_replace, regex_replace_scan]

theorem normalize_cons_of_match (c : Char) (rest : Str) (h : unk_pattern <+: c :: rest) :
    normalize (c :: rest) = unk_display ++ normalize (rest.drop 4) := by
  have h' : unk_pattern.isPrefixOf (c :: rest) = true := List.isPrefixOf_iff_prefix.mpr h
  simp only [normalize, regex_replace, regex_replace_scan, h', if_true]
  rw [regex_replace_scan_skip]
  rfl

theorem normalize_cons_of_no_match (c : Char) (rest : Str) (h : ¬ unk_pattern <+: c :: rest) :
    normalize (c :: rest) = c :: normalize rest := by
  have h' : unk_pattern.isPrefixOf (c :: rest) = false :=
    Bool.eq_false_iff.mpr fun hp => h (List.isPrefixOf_iff_prefix.mp hp)
  simp only [normalize, regex_replace, regex_replace_scan, h', Bool.false_eq_true, if_false]

theorem normalize_marker (rest : Str) :
    normalize (unk_pattern ++ rest) = unk_display ++ normalize rest := by
  have h : unk_pattern <+: '<' :: ('u' :: 'n' :: 'k' :: '>' :: rest) :=
    ⟨rest, rfl⟩
  exact normalize_cons_of_match '<' _ h

/-- The marker `"<unk>"` has no border: inside a piece that does not contain
it, and that is followed by nothing or by a marker, no position starts a match. -/
theorem no_match_inside_piece (c : Char) (piece follow : Str)
    (hpiece : ¬ unk_pattern <:+: c :: piece)
    (hfollow : follow = [] ∨ ∃ r, follow = unk_pattern ++ r) :
    ¬ unk_pattern <+: c :: (piece ++ follow) := by
  have hpre : ¬ unk_pattern <+: c :: piece := fun h => hpiece h.isInfix
  rcases hfollow with rfl | ⟨r, rfl⟩
  · simpa using hpre
  · rcases piece with _ | ⟨c2, _ | ⟨c3, _ | ⟨c4, _ | ⟨c5, more⟩⟩⟩⟩
    all_goals simp_all [unk_pattern, List.cons_prefix_cons]
    exact hpre

theorem normalize_piece_append (piece follow : Str)
    (hpiece : ¬ unk_pattern <:+: piece)
    (hfollow : follow = [] ∨ ∃ r, follow = unk_pattern ++ r) :
    normalize (piece ++ follow) = piece ++ normalize follow := by
  induction piece with
  | nil => simp
  | cons c piece ih =>
    have hno := no_match_inside_piece c piece follow hpiece hfollow
    have htail : ¬ unk_pattern <:+: piece := fun h => hpiece (List.infix_cons h)
    rw [List.cons_append, normalize_cons_of_no_match c _ hno, ih htail, List.cons_append]

theorem normalize_of_no_marker (text : Str) (h : ¬ unk_pattern <:+: text) :
    normalize text = text := by
  have := normalize_piece_append text [] h (Or.inl rfl)
  simpa [normalize_nil] using this

theorem normalize_interleave (s0 : Str) (rest : List Str)
    (hparts : ∀ s ∈ s0 :: rest, ¬ unk_pattern <:+: s) :
    normalize (interleave unk_pattern s0 rest) = interleave unk_display s0 rest := by
  induction rest generalizing s0 with
  | nil => exact normalize_of_no_marker s0 (hparts s0 (by simp))
  | cons s1 rest ih =>
    have h0 : ¬ unk_pattern <:+: s0 := hparts s0 (by simp)
    have hrest : ∀ s ∈ s1 :: rest, ¬ unk_pattern <:+: s :=
      fun s hs => hparts s (List.mem_cons_of_mem _ hs)
    simp only [interleave, List.append_assoc]
    rw [normalize_piece_append s0 _ h0 (Or.inr ⟨_, rfl⟩), normalize_marker, ih s1 hrest]

/-- C2: when the decoded text is `s0 ++ "<unk>" ++ s1 ++ ... ++ "<unk>" ++ sk`
with no piece containing `"<unk>"`, the writer hook emits
`s0 ++ "UNK" ++ s1 ++ ... ++ "UNK" ++ sk` followed by the newline; a text without
`"<unk>"` (no further piece) is emitted unchanged. -/
theorem writer_replaces_every_marker (sp_processor : SentencePieceProcessor) (out : OStream)
    (result : TranslationResult) (s0 : Str) (rest : List Str)
    (hparts : ∀ s ∈ s0 :: rest, ¬ unk_pattern <:+: s)
    (htext : sp_processor.Decode result.output = interleave unk_pattern s0 rest) :
    writer sp_processor out result = out ++ [interleave unk_display s0 rest ++ ['\n']] := by
  simp only [writer, htext, normalize_interleave s0 rest hparts]

/-- C2 at the decoded text `a<unk><unk>b`, emitted as `aUNKUNKb`. -/
theorem writer_replaces_every_marker_witness :
    writer char_tokenizer [] ⟨[['a'], unk_pattern, unk_pattern, ['b']]⟩
      = [['a', 'U', 'N', 'K', 'U', 'N', 'K', 'b', '\n']] :=
  writer_replaces_every_marker char_tokenizer [] ⟨[['a'], unk_pattern, unk_pattern, ['b']]⟩
    ['a'] [[], ['b']] (by decide) (by decide)

theorem starts_normalize_imp_starts (text q : Str) (hq : ∀ a ∈ q, a ≠ 'U')
    (h : q <+: normalize text) : q <+: text := by
  induction text generalizing q with
  | nil => simpa [normalize_nil] using h
  | cons c rest ih =>
    rcases q with _ | ⟨a, q⟩
    · exact List.nil_prefix
    · by_cases hm : unk_pattern <+: c :: rest
      · rw [normalize_cons_of_match c rest hm] at h
        simp only [unk_display, List.cons_append, List.cons_prefix_cons] at h
        exact absurd h.1 (hq a (by simp))
      · rw [normalize_cons_of_no_match c rest hm, List.cons_prefix_cons] at h
        rw [List.cons_prefix_cons]
        exact ⟨h.1, ih q (fun b hb => hq b (List.mem_cons_of_mem _ hb)) h.2⟩

theorem no_marker_in_scan (skip : Nat) (text : Str) :
    ¬ unk_pattern <:+: regex_replace_scan unk_pattern unk_display skip text := by
  induction text generalizing skip with
  | nil => cases skip <;> simp [regex_replace_scan, unk_pattern]
  | cons c rest ih =>
    cases skip with
    | succ k => simpa [regex_replace_scan] using ih k
    | zero =>
      by_cases hm : unk_pattern <+: c :: rest
      · have hm' : unk_pattern.isPrefixOf (c :: rest) = true := List.isPrefixOf_iff_prefix.mpr hm
        simp only [regex_replace_scan, hm', if_true, unk_display, List.cons_append,
          List.nil_append, List.infix_cons_iff, not_or]
        refine ⟨by simp [unk_pattern, List.cons_prefix_cons], by simp [unk_pattern, List.cons_prefix_cons],
          by simp [unk_pattern, List.cons_prefix_cons], ih _⟩
      · have hm' : unk_pattern.isPrefixOf (c :: rest) = false :=
          Bool.eq_false_iff.mpr fun hp => hm (List.isPrefixOf_iff_prefix.mp hp)
        simp only [regex_replace_scan, hm', Bool.false_eq_true, if_false, List.infix_cons_iff,
          not_or]
        refine ⟨fun hp => hm ?_, ih 0⟩
        have hn : normalize (c :: rest) = c :: normalize rest := normalize_cons_of_no_match c rest hm
        refine starts_normalize_imp_starts (c :: rest) unk_pattern (by decide) ?_
        rw [hn]
        exact hp

/-- C10: the text the writer hook emits contains no `"<unk>"`, and normalising
it again changes nothing. -/
theorem normalize_removes_every_marker (text : Str) :
    ¬ unk_pattern <:+: normalize text ∧ normalize (normalize text) = normalize text :=
  ⟨no_marker_in_scan 0 text, normalize_of_no_marker _ (no_marker_in_scan 0 text)⟩

/-! ## The pipeline -/

theorem take_out_some {α : Type} (j : Nat) (l : List α) (x : α) (rest : List α)
    (h : take_out j l = some (x, rest)) :
    (∀ y, y ∈ l ↔ y = x ∨ y ∈ rest) ∧ l.length = rest.length + 1 := by
  induction l generalizing j rest with
  | nil => simp [take_out] at h
  | cons a l ih =>
    cases j with
    | zero =>
      simp only [take_out, Option.some.injEq, Prod.mk.injEq] at h
      obtain ⟨rfl, rfl⟩ := h
      simp
    | succ j =>
      simp only [take_out] at h
      cases hj : take_out j l with
      | none => simp [hj] at h
      | some pr =>
        obtain ⟨y, r⟩ := pr
        simp only [hj, Option.some.injEq, Prod.mk.injEq] at h
        obtain ⟨rfl, rfl⟩ := h
        obtain ⟨hmem, hlen⟩ := ih j r hj
        refine ⟨fun z => ?_, by simp [hlen]⟩
        simp only [List.mem_cons, hmem z]
        tauto

theorem take_out_of_lt {α : Type} (j : Nat) (l : List α) (h : j < l.length) :
    ∃ x rest, take_out j l = some (x, rest) := by
  induction l generalizing j with
  | nil => simp at h
  | cons a l ih =>
    cases j with
    | zero => exact ⟨a, l, rfl⟩
    | succ j =>
      obtain ⟨x, rest, hx⟩ := ih j (by simpa using h)
      exact ⟨x, a :: rest, by simp [take_out, hx]⟩

theorem take_index_some {α : Type} (i : Nat) (l : List (Nat × α)) (r : α)
    (rest : List (Nat × α)) (h : take_index i l = some (r, rest)) :
    (∀ e, e ∈ l ↔ e = (i, r) ∨ e ∈ rest) ∧ l.length = rest.length + 1 := by
  induction l generalizing rest with
  | nil => simp [take_index] at h
  | cons a l ih =>
    simp only [take_index] at h
    by_cases ha : a.1 = i
    · simp only [ha, if_true, Option.some.injEq, Prod.mk.injEq] at h
      obtain ⟨rfl, rfl⟩ := h
      refine ⟨fun e => ?_, rfl⟩
      rw [← ha]
      simp
    · simp only [ha, if_false] at h
      cases hi : take_index i l with
      | none => simp [hi] at h
      | some pr =>
        obtain ⟨y, r'⟩ := pr
        simp only [hi, Option.some.injEq, Prod.mk.injEq] at h
        obtain ⟨rfl, rfl⟩ := h
        obtain ⟨hmem, hlen⟩ := ih r' hi
        refine ⟨fun z => ?_, by simp [hlen]⟩
        simp only [List.mem_cons, hmem z]
        tauto

theorem take_index_none {α : Type} (i : Nat) (l : List (Nat × α))
    (h : take_index i l = none) : ∀ e ∈ l, e.1 ≠ i := by
  induction l with
  | nil => simp
  | cons a l ih =>
    simp only [take_index] at h
    by_cases ha : a.1 = i
    · simp [ha] at h
    · simp only [ha, if_false] at h
      cases hi : take_index i l with
      | none =>
        intro e he
        rcases List.mem_cons.mp he with rfl | he
        · exact ha
        · exact ih hi e he
      | some pr => simp [hi] at h

theorem drop_eq_cons {α : Type} (l : List α) (n : Nat) (a : α) (r : List α)
    (h : l.drop n = a :: r) : l[n]? = some a ∧ l.drop (n + 1) = r ∧ n < l.length := by
  induction l generalizing n with
  | nil => simp at h
  | cons b l ih =>
    cases n with
    | zero =>
      simp only [List.drop_zero, List.cons.injEq] at h
      obtain ⟨rfl, rfl⟩ := h
      simp
    | succ n =>
      simp only [List.drop_succ_cons] at h
      obtain ⟨h1, h2, h3⟩ := ih n h
      refine ⟨?_, ?_, ?_⟩
      · rw [List.getElem?_cons_succ]; exact h1
      · rw [List.drop_succ_cons]; exact h2
      · simp only [List.length_cons]; omega

theorem flush_frame (p : Pipeline) (fuel : Nat) (st : PipelineState) :
    (flush p fuel st).input = st.input ∧ (flush p fuel st).at_end = st.at_end
      ∧ (flush p fuel st).next_index = st.next_index
      ∧ (flush p fuel st).current = st.current
      ∧ (flush p fuel st).in_flight = st.in_flight := by
  induction fuel generalizing st with
  | zero => simp [flush]
  | succ fuel ih =>
    simp only [flush]
    split
    · simp
    · rename_i result rest _
      obtain ⟨h1, h2, h3, h4, h5⟩ := ih
        { st with buffer := rest, written := st.written + 1,
                  output := p.writer st.output result }
      exact ⟨h1, h2, h3, h4, h5⟩

theorem flush_flushed (p : Pipeline) (fuel : Nat) (st : PipelineState)
    (h : st.buffer.length ≤ fuel) : Flushed (flush p fuel st) := by
  induction fuel generalizing st with
  | zero =>
    have hnil : st.buffer = [] := List.length_eq_zero.mp (Nat.le_zero.mp h)
    simp [flush, Flushed, hnil]
  | succ fuel ih =>
    simp only [flush]
    split
    · rename_i hnone
      exact take_index_none _ _ hnone
    · rename_i result rest hsome
      apply ih
      have := (take_index_some _ _ _ _ hsome).2
      simp only
      omega

theorem flush_invariant (sp_processor : SentencePieceProcessor) (p : Pipeline)
    (hw : p.writer = writer sp_processor) (input0 : IStream) (out0 : OStream) (fuel : Nat)
    (st : PipelineState) (inv : Invariant sp_processor p input0 out0 st) :
    Invariant sp_processor p input0 out0 (flush p fuel st) := by
  induction fuel generalizing st with
  | zero => exact inv
  | succ fuel ih =>
    simp only [flush]
    split
    · exact inv
    · rename_i result rest hsome
      obtain ⟨hmem, _⟩ := take_index_some _ _ _ _ hsome
      have hin : (st.written, result) ∈ st.buffer := (hmem _).mpr (Or.inl rfl)
      obtain ⟨hlt, line, hline, hres⟩ := inv.buffer_ok _ hin
      apply ih
      refine
        { is_open_eq := inv.is_open_eq
          lines_eq := inv.lines_eq
          at_end_read := inv.at_end_read
          current_ok := inv.current_ok
          in_flight_ok := inv.in_flight_ok
          buffer_ok := fun e he => inv.buffer_ok e ((hmem e).mpr (Or.inr he))
          cover := ?_
          written_le := hlt
          output_eq := ?_ }
      · intro i hi hlt'
        rcases inv.cover i (by simp only at hi; omega) hlt' with hc | hc | ⟨e, he, hei⟩
        · exact Or.inl hc
        · exact Or.inr (Or.inl hc)
        · rcases (hmem e).mp he with rfl | he'
          · simp only at hi hei
            omega
          · exact Or.inr (Or.inr ⟨e, he', hei⟩)
      · simp only at hline hres ⊢
        rw [hw, writer, inv.output_eq, List.take_succ, hline, hres]
        simp [output_line]

theorem complete_step_frame (p : Pipeline) (k : Nat) (st : PipelineState) :
    (complete_step p k st).input = st.input ∧ (complete_step p k st).at_end = st.at_end
      ∧ (complete_step p k st).next_index = st.next_index
      ∧ (complete_step p k st).current = st.current := by
  simp only [complete_step]
  split
  · simp
  · split
    · simp
    · rename_i batch rest _
      obtain ⟨h1, h2, h3, h4, _⟩ := flush_frame p
        (st.buffer ++ batch.map fun e => (e.1, p.translate p.options e.2)).length
        { st with in_flight := rest,
                  buffer := st.buffer ++ batch.map fun e => (e.1, p.translate p.options e.2) }
      exact ⟨h1, h2, h3, h4⟩

theorem complete_step_flushed (p : Pipeline) (k : Nat) (st : PipelineState)
    (h : Flushed st) : Flushed (complete_step p k st) := by
  simp only [complete_step]
  split
  · exact h
  · split
    · exact h
    · exact flush_flushed p _ _ (Nat.le_refl _)

theorem complete_step_in_flight (p : Pipeline) (k : Nat) (st : PipelineState)
    (hrep : 0 < p.replicas) (hne : st.in_flight ≠ []) :
    (complete_step p k st).in_flight.length + 1 = st.in_flight.length := by
  have hlen : 0 < st.in_flight.length := List.length_pos.mpr hne
  have hbusy : 0 < min p.replicas st.in_flight.length := by omega
  have hlt : k % min p.replicas st.in_flight.length < st.in_flight.length :=
    Nat.lt_of_lt_of_le (Nat.mod_lt _ hbusy) (Nat.min_le_right _ _)
  obtain ⟨batch, rest, hsome⟩ := take_out_of_lt _ _ hlt
  have hrest := (take_out_some _ _ _ _ hsome).2
  simp only [complete_step, Nat.ne_of_gt hbusy, if_false, hsome]
  rw [(flush_frame p _ _).2.2.2.2]
  simp only
  omega

theorem complete_step_invariant (sp_processor : SentencePieceProcessor) (p : Pipeline)
    (hw : p.writer = writer sp_processor) (input0 : IStream) (out0 : OStream) (k : Nat)
    (st : PipelineState) (inv : Invariant sp_processor p input0 out0 st) :
    Invariant sp_processor p input0 out0 (complete_step p k st) := by
  simp only [complete_step]
  split
  · exact inv
  · split
    · exact inv
    · rename_i batch rest hsome
      obtain ⟨hmem, _⟩ := take_out_some _ _ _ _ hsome
      apply flush_invariant sp_processor p hw
      refine
        { is_open_eq := inv.is_open_eq
          lines_eq := inv.lines_eq
          at_end_read := inv.at_end_read
          current_ok := inv.current_ok
          in_flight_ok := fun b hb => inv.in_flight_ok b ((hmem b).mpr (Or.inr hb))
          buffer_ok := ?_
          cover := ?_
          written_le := inv.written_le
          output_eq := inv.output_eq }
      · intro e he
        rcases List.mem_append.mp he with he | he
        · exact inv.buffer_ok e he
        · obtain ⟨e0, he0, rfl⟩ := List.mem_map.mp he
          obtain ⟨hlt, line, hline, henc⟩ :=
            inv.in_flight_ok batch ((hmem batch).mpr (Or.inl rfl)) e0 he0
          exact ⟨hlt, line, hline, by simp only [henc]⟩
      · intro i hi hlt
        rcases inv.cover i hi hlt with hc | ⟨b, hb, e, he, hei⟩ | ⟨e, he, hei⟩
        · exact Or.inl hc
        · rcases (hmem b).mp hb with rfl | hb'
          · refine Or.inr (Or.inr ⟨(e.1, p.translate p.options e.2), ?_, hei⟩)
            exact List.mem_append.mpr (Or.inr (List.mem_map.mpr ⟨e, he, rfl⟩))
          · exact Or.inr (Or.inl ⟨b, hb', e, he, hei⟩)
        · exact Or.inr (Or.inr ⟨e, List.mem_append.mpr (Or.inl he), hei⟩)

theorem submit_invariant (sp_processor : SentencePieceProcessor) (p : Pipeline)
    (input0 : IStream) (out0 : OStream) (st : PipelineState)
    (inv : Invariant sp_processor p input0 out0 st) :
    Invariant sp_processor p input0 out0 (submit st) := by
  refine
    { is_open_eq := inv.is_open_eq
      lines_eq := inv.lines_eq
      at_end_read := fun h => ⟨(inv.at_end_read h).1, rfl⟩
      current_ok := fun e he => by simp [submit] at he
      in_flight_ok := ?_
      buffer_ok := inv.buffer_ok
      cover := ?_
      written_le := inv.written_le
      output_eq := inv.output_eq }
  · intro b hb e he
    rcases List.mem_append.mp hb with hb | hb
    · exact inv.in_flight_ok b hb e he
    · rw [List.mem_singleton.mp hb] at he
      exact inv.current_ok e he
  · intro i hi hlt
    rcases inv.cover i hi hlt with ⟨e, he, hei⟩ | ⟨b, hb, hc⟩ | hc
    · exact Or.inr (Or.inl ⟨st.current, List.mem_append.mpr (Or.inr (List.mem_singleton.mpr rfl)),
        e, he, hei⟩)
    · exact Or.inr (Or.inl ⟨b, List.mem_append.mpr (Or.inl hb), hc⟩)
    · exact Or.inr (Or.inr hc)

theorem reader_none (sp_processor : SentencePieceProcessor) (input : IStream)
    (h : reader sp_processor input = none) : input.is_open = false ∨ input.lines = [] := by
  unfold reader getline at h
  by_cases ho : input.is_open = true
  · right
    cases hl : input.lines with
    | nil => rfl
    | cons a r => simp [ho, hl] at h
  · left
    simpa using ho

theorem reader_some (sp_processor : SentencePieceProcessor) (input input' : IStream)
    (tokens : TokenSequence) (h : reader sp_processor input = some (tokens, input')) :
    ∃ line rest, input.is_open = true ∧ input.lines = line :: rest
      ∧ tokens = sp_processor.Encode line ∧ input' = { input with lines := rest } := by
  unfold reader getline at h
  by_cases ho : input.is_open = true
  · cases hl : input.lines with
    | nil => simp [ho, hl] at h
    | cons a r =>
      simp only [ho, hl, if_true, Option.some.injEq, Prod.mk.injEq] at h
      exact ⟨a, r, ho, rfl, h.1.symm, h.2.symm.trans (by rw [ho])⟩
  · simp [ho] at h

theorem at_end_invariant (sp_processor : SentencePieceProcessor) (p : Pipeline)
    (input0 : IStream) (out0 : OStream) (st : PipelineState)
    (inv : Invariant sp_processor p input0 out0 st) (hcur : st.current = [])
    (hlen : (readable input0).length ≤ st.next_index) :
    Invariant sp_processor p input0 out0 { st with at_end := true } :=
  { is_open_eq := inv.is_open_eq
    lines_eq := inv.lines_eq
    at_end_read := fun _ => ⟨hlen, hcur⟩
    current_ok := inv.current_ok
    in_flight_ok := inv.in_flight_ok
    buffer_ok := inv.buffer_ok
    cover := inv.cover
    written_le := inv.written_le
    output_eq := inv.output_eq }

theorem accept_invariant (sp_processor : SentencePieceProcessor) (p : Pipeline)
    (input0 : IStream) (out0 : OStream) (st : PipelineState)
    (inv : Invariant sp_processor p input0 out0 st) (hnot : st.at_end = false)
    (line : Str) (rest : List Str) (hopen : st.input.is_open = true)
    (hlines : st.input.lines = line :: rest) :
    Invariant sp_processor p input0 out0
      { st with
        input := { st.input with lines := rest }
        next_index := st.next_index + 1
        current := st.current ++ [(st.next_index, sp_processor.Encode line)] } := by
  have hdrop : input0.lines.drop st.next_index = line :: rest := by
    rw [← inv.lines_eq]; exact hlines
  obtain ⟨hget, hrest, _⟩ := drop_eq_cons _ _ _ _ hdrop
  have hopen0 : input0.is_open = true := by rw [← inv.is_open_eq]; exact hopen
  have hall : readable input0 = input0.lines := by simp [readable, hopen0]
  refine
    { is_open_eq := inv.is_open_eq
      lines_eq := hrest.symm
      at_end_read := fun h => by simp only [hnot] at h; exact absurd h (by decide)
      current_ok := ?_
      in_flight_ok := ?_
      buffer_ok := ?_
      cover := ?_
      written_le := Nat.le_succ_of_le inv.written_le
      output_eq := inv.output_eq }
  · intro e he
    rcases List.mem_append.mp he with he | he
    · obtain ⟨h1, h2⟩ := inv.current_ok e he
      exact ⟨Nat.lt_succ_of_lt h1, h2⟩
    · rw [List.mem_singleton.mp he]
      exact ⟨Nat.lt_succ_self _, line, by rw [hall]; exact hget, rfl⟩
  · intro b hb e he
    obtain ⟨h1, h2⟩ := inv.in_flight_ok b hb e he
    exact ⟨Nat.lt_succ_of_lt h1, h2⟩
  · intro e he
    obtain ⟨h1, h2⟩ := inv.buffer_ok e he
    exact ⟨Nat.lt_succ_of_lt h1, h2⟩
  · intro i hi hlt
    rcases Nat.lt_succ_iff_lt_or_eq.mp hlt with hlt' | heq
    · rcases inv.cover i hi hlt' with ⟨e, he, hei⟩ | hc | hc
      · exact Or.inl ⟨e, List.mem_append.mpr (Or.inl he), hei⟩
      · exact Or.inr (Or.inl hc)
      · exact Or.inr (Or.inr hc)
    · exact Or.inl ⟨(st.next_index, sp_processor.Encode line),
        List.mem_append.mpr (Or.inr (List.mem_singleton.mpr rfl)), heq.symm⟩

theorem read_step_invariant (sp_processor : SentencePieceProcessor) (p : Pipeline)
    (hr : p.reader = reader sp_processor) (input0 : IStream) (out0 : OStream)
    (st : PipelineState) (inv : Invariant sp_processor p input0 out0 st) :
    Invariant sp_processor p input0 out0 (read_step p st) := by
  unfold read_step
  by_cases hend : st.at_end = true
  · rw [if_pos hend]; exact inv
  · have hnot : st.at_end = false := by simpa using hend
    rw [if_neg hend]
    cases hread : p.reader st.input with
    | none =>
      rw [hr] at hread
      have hlen : (readable input0).length ≤ st.next_index := by
        rcases reader_none _ _ hread with h | h
        · have : input0.is_open = false := by rw [← inv.is_open_eq]; exact h
          simp [readable, this]
        · have hd : input0.lines.drop st.next_index = [] := by rw [← inv.lines_eq]; exact h
          have := List.drop_eq_nil_iff.mp hd
          unfold readable
          split
          · exact this
          · simp
      simp only
      split
      · rename_i hempty
        exact at_end_invariant sp_processor p input0 out0 st inv
          (List.isEmpty_iff.mp hempty) hlen
      · exact at_end_invariant sp_processor p input0 out0 (submit st)
          (submit_invariant sp_processor p input0 out0 st inv) rfl hlen
    | some pr =>
      obtain ⟨tokens, input'⟩ := pr
      rw [hr] at hread
      obtain ⟨line, rest, hopen, hlines, rfl, rfl⟩ := reader_some _ _ _ _ hread
      have hacc := accept_invariant sp_processor p input0 out0 st inv hnot line rest hopen hlines
      simp only
      split
      · exact submit_invariant sp_processor p input0 out0 _ hacc
      · exact hacc

theorem read_step_flushed (p : Pipeline) (st : PipelineState) (h : Flushed st) :
    Flushed (read_step p st) := by
  unfold read_step
  split
  · exact h
  · split
    · simp only
      split <;> exact h
    · simp only
      split <;> exact h

theorem scripted_invariant (sp_processor : SentencePieceProcessor) (p : Pipeline)
    (hr : p.reader = reader sp_processor) (hw : p.writer = writer sp_processor)
    (input0 : IStream) (out0 : OStream) (schedule : List (Option Nat)) (st : PipelineState)
    (inv : Invariant sp_processor p input0 out0 st) (hf : Flushed st) :
    Invariant sp_processor p input0 out0 (scripted p schedule st)
      ∧ Flushed (scripted p schedule st) := by
  induction schedule generalizing st with
  | nil => exact ⟨inv, hf⟩
  | cons a schedule ih =>
    cases a with
    | none =>
      exact ih _ (read_step_invariant sp_processor p hr input0 out0 st inv)
        (read_step_flushed p st hf)
    | some k =>
      exact ih _ (complete_step_invariant sp_processor p hw input0 out0 k st inv)
        (complete_step_flushed p k st hf)

theorem read_step_progress (sp_processor : SentencePieceProcessor) (p : Pipeline)
    (hr : p.reader = reader sp_processor) (st : PipelineState) (hnot : ¬ st.at_end = true) :
    (read_step p st).at_end = true
      ∨ (read_step p st).input.lines.length < st.input.lines.length := by
  unfold read_step
  rw [if_neg hnot]
  cases hread : p.reader st.input with
  | none =>
    left
    simp only
    split <;> rfl
  | some pr =>
    obtain ⟨tokens, input'⟩ := pr
    rw [hr] at hread
    obtain ⟨line, rest, _, hlines, _, rfl⟩ := reader_some _ _ _ _ hread
    right
    simp only
    split <;> simp [submit, hlines]

theorem read_all_invariant (sp_processor : SentencePieceProcessor) (p : Pipeline)
    (hr : p.reader = reader sp_processor) (input0 : IStream) (out0 : OStream) (fuel : Nat)
    (st : PipelineState) (inv : Invariant sp_processor p input0 out0 st) (hf : Flushed st) :
    Invariant sp_processor p input0 out0 (read_all p fuel st)
      ∧ Flushed (read_all p fuel st) := by
  induction fuel generalizing st with
  | zero => exact ⟨inv, hf⟩
  | succ fuel ih =>
    simp only [read_all]
    split
    · exact ⟨inv, hf⟩
    · exact ih _ (read_step_invariant sp_processor p hr input0 out0 st inv)
        (read_step_flushed p st hf)

theorem read_all_at_end (sp_processor : SentencePieceProcessor) (p : Pipeline)
    (hr : p.reader = reader sp_processor) (fuel : Nat) (st : PipelineState)
    (h : st.input.lines.length < fuel) : (read_all p fuel st).at_end = true := by
  induction fuel generalizing st with
  | zero => omega
  | succ fuel ih =>
    simp only [read_all]
    split
    · assumption
    · rename_i hnot
      rcases read_step_progress sp_processor p hr st hnot with hend | hless
      · cases fuel with
        | zero => exact hend
        | succ fuel => simp only [read_all, hend, if_true]
      · exact ih _ (by omega)

theorem drain_invariant (sp_processor : SentencePieceProcessor) (p : Pipeline)
    (hw : p.writer = writer sp_processor) (input0 : IStream) (out0 : OStream) (fuel : Nat)
    (st : PipelineState) (inv : Invariant sp_processor p input0 out0 st) (hf : Flushed st) :
    Invariant sp_processor p input0 out0 (drain p fuel st) ∧ Flushed (drain p fuel st)
      ∧ (drain p fuel st).at_end = st.at_end := by
  induction fuel generalizing st with
  | zero => exact ⟨inv, hf, rfl⟩
  | succ fuel ih =>
    simp only [drain]
    obtain ⟨h1, h2, h3⟩ := ih _ (complete_step_invariant sp_processor p hw input0 out0 0 st inv)
      (complete_step_flushed p 0 st hf)
    exact ⟨h1, h2, h3.trans (complete_step_frame p 0 st).2.1⟩

theorem drain_in_flight (p : Pipeline) (hrep : 0 < p.replicas) (fuel : Nat)
    (st : PipelineState) (h : st.in_flight.length ≤ fuel) :
    (drain p fuel st).in_flight = [] := by
  induction fuel generalizing st with
  | zero => exact List.length_eq_zero.mp (Nat.le_zero.mp h)
  | succ fuel ih =>
    simp only [drain]
    apply ih
    by_cases hne : st.in_flight = []
    · simp [complete_step, hne]
    · have := complete_step_in_flight p 0 st hrep hne
      omega

theorem initial_invariant (sp_processor : SentencePieceProcessor) (p : Pipeline)
    (input : IStream) (out : OStream) :
    Invariant sp_processor p input out
      { input := input, at_end := false, next_index := 0, current := [], in_flight := [],
        buffer := [], written := 0, output := out } :=
  { is_open_eq := rfl
    lines_eq := rfl
    at_end_read := fun h => by simp at h
    current_ok := fun e he => by simp at he
    in_flight_ok := fun b hb => by simp at hb
    buffer_ok := fun e he => by simp at he
    cover := fun i _ hlt => absurd hlt (Nat.not_lt_zero i)
    written_le := Nat.le_refl 0
    output_eq := by simp }

theorem finished_of_invariant (sp_processor : SentencePieceProcessor) (p : Pipeline)
    (input0 : IStream) (out0 : OStream) (st : PipelineState)
    (inv : Invariant sp_processor p input0 out0 st) (hf : Flushed st)
    (hend : st.at_end = true) (hfl : st.in_flight = []) :
    finished st = true
      ∧ st.output
          = out0 ++ (readable input0).map (output_line sp_processor p.translate p.options) := by
  obtain ⟨hlen, hcur⟩ := inv.at_end_read hend
  have hwritten : st.written = st.next_index := by
    apply Nat.le_antisymm inv.written_le
    by_contra hlt
    rcases inv.cover _ (Nat.le_refl _) (Nat.lt_of_not_le hlt) with ⟨e, he, _⟩ | ⟨b, hb, _⟩
      | ⟨e, he, hei⟩
    · rw [hcur] at he; simp at he
    · rw [hfl] at hb; simp at hb
    · exact hf e he hei
  refine ⟨by simp [finished, hend, hfl, hwritten], ?_⟩
  rw [inv.output_eq, List.take_of_length_le (by rw [hwritten]; exact hlen)]

/-- With at least one replica and the hooks of main.cc, every run of the
pipeline finishes, whatever the threshold and the interleaving, and has then
written one record per readable line, in input order. -/
theorem run_pipeline_finished (sp_processor : SentencePieceProcessor) (p : Pipeline)
    (hr : p.reader = reader sp_processor) (hw : p.writer = writer sp_processor)
    (hrep : 0 < p.replicas) (schedule : List (Option Nat)) (input : IStream) (out : OStream) :
    finished (run_pipeline p schedule input out) = true
      ∧ (run_pipeline p schedule input out).output
          = out ++ (readable input).map (output_line sp_processor p.translate p.options) := by
  have inv0 := initial_invariant sp_processor p input out
  have hf0 : Flushed (⟨input, false, 0, [], [], [], 0, out⟩ : PipelineState) :=
    fun e he => by simp at he
  unfold run_pipeline
  simp only
  generalize (⟨input, false, 0, [], [], [], 0, out⟩ : PipelineState) = st0 at inv0 hf0 ⊢
  obtain ⟨inv1, hf1⟩ := scripted_invariant sp_processor p hr hw input out schedule st0 inv0 hf0
  generalize scripted p schedule st0 = st1 at inv1 hf1 ⊢
  obtain ⟨inv2, hf2⟩ := read_all_invariant sp_processor p hr input out
    (st1.input.lines.length + 1) st1 inv1 hf1
  have hend2 := read_all_at_end sp_processor p hr (st1.input.lines.length + 1) st1
    (Nat.lt_succ_self _)
  generalize read_all p (st1.input.lines.length + 1) st1 = st2 at inv2 hf2 hend2 ⊢
  obtain ⟨inv3, hf3, hend3⟩ := drain_invariant sp_processor p hw input out
    st2.in_flight.length st2 inv2 hf2
  have hfl3 := drain_in_flight p hrep st2.in_flight.length st2 (Nat.le_refl _)
  exact finished_of_invariant sp_processor p input out _ inv3 hf3 (hend3.trans hend2) hfl3

theorem consume_stream_returns (sp_processor : SentencePieceProcessor) (p : Pipeline)
    (hr : p.reader = reader sp_processor) (hw : p.writer = writer sp_processor)
    (hrep : 0 < p.replicas) (schedule : List (Option Nat)) (input : IStream) (out : OStream) :
    consume_stream p schedule input out
      = some ((run_pipeline p schedule input out).input,
          out ++ (readable input).map (output_line sp_processor p.translate p.options)) := by
  obtain ⟨hfin, hout⟩ := run_pipeline_finished sp_processor p hr hw hrep schedule input out
  simp only [consume_stream, hfin, if_true, hout]

theorem main_returns (w : World) (num_cores : Int) (h1 : w.sp_load_ok = true)
    (h2 : w.sp_set_vocabulary_ok (get_vocabulary_tokens w.source_vocabulary) = true)
    (hrep : 0 < (select_profile w.device num_cores).num_replicas) :
    (main w num_cores).outcome = Outcome.returned
      ∧ (main w num_cores).out_file = some ((readable w.in_file).map
          (output_line w.sp_processor w.translate
            (make_options (select_profile w.device num_cores).max_batch_size))) := by
  unfold main
  simp only [h1, h2, Bool.not_true, Bool.false_eq_true, if_false]
  rw [consume_stream_returns w.sp_processor _ rfl rfl hrep]
  simp

/-- C1 as stated fails at a replica count of 0, which `main` hands to the pool
at 0 cores on a CPU: on an input of one line no call returns with one record;
the call never returns and nothing is written. -/
theorem zero_replicas_write_nothing :
    (¬ ∃ (input' : IStream) (out : List Str),
        consume_stream
            { replicas := 0, translate := fun _ tokens => ⟨tokens.reverse⟩, threshold := 2048,
              options := make_options 256, reader := reader char_tokenizer,
              writer := writer char_tokenizer }
            [] { is_open := true, lines := [['a']], bad := false } []
          = some (input', out)
        ∧ out.length = [['a']].length)
      ∧ (select_profile Device.CPU 0).num_replicas = 0
      ∧ (main (sample_world Device.CPU true true [] ⟨true, [['a']], false⟩) 0).outcome
          = Outcome.blocked
      ∧ (main (sample_world Device.CPU true true [] ⟨true, [['a']], false⟩) 0).out_file
          = some [] := by
  refine ⟨?_, by decide, by decide, by decide⟩
  rintro ⟨input', out, h, _⟩
  have hnone : consume_stream
      { replicas := 0, translate := fun _ tokens => ⟨tokens.reverse⟩, threshold := 2048,
        options := make_options 256, reader := reader char_tokenizer,
        writer := writer char_tokenizer }
      [] { is_open := true, lines := [['a']], bad := false } [] = none := by
    decide
  rw [hnone] at h
  cases h

/-- C1, amended: with the hooks of main.cc and a pool of at least one replica,
for every input of N lines, every accumulation threshold, every replica count
from 1 on and every interleaving of reads and out-of-order batch completions,
`consume_stream` returns and the output holds exactly N records, the `i`-th
being the normalised decoding of the translation of the encoding of the `i`-th
input line, followed by a newline. -/
theorem output_lines_in_input_order (sp_processor : SentencePieceProcessor)
    (translate : TranslationOptions → TokenSequence → TranslationResult)
    (options : TranslationOptions) (threshold replicas : Nat) (hrep : 0 < replicas)
    (schedule : List (Option Nat)) (lines : List Str) :
    ∃ (input' : IStream) (out : List Str),
      consume_stream
          { replicas := replicas, translate := translate, threshold := threshold,
            options := options, reader := reader sp_processor, writer := writer sp_processor }
          schedule { is_open := true, lines := lines, bad := false } []
        = some (input', out)
      ∧ out.length = lines.length
      ∧ ∀ (i : Nat) (line : Str), lines[i]? = some line →
          out[i]? = some (normalize
            (sp_processor.Decode (translate options (sp_processor.Encode line)).output)
              ++ ['\n']) := by
  refine ⟨_, _, consume_stream_returns sp_processor _ rfl rfl hrep schedule _ [], ?_, ?_⟩
  · simp [readable]
  · intro i line hline
    simp [readable, List.getElem?_map, hline, output_line]

/-- C1, amended, on three lines, a threshold of one token, two replicas, and a
schedule in which the second batch completes before the first. -/
theorem output_lines_in_input_order_witness :
    0 < 2 ∧ ∃ (input' : IStream) (out : List Str),
      consume_stream
          { replicas := 2, translate := fun _ tokens => ⟨tokens.reverse⟩, threshold := 1,
            options := make_options 256, reader := reader char_tokenizer,
            writer := writer char_tokenizer }
          [none, none, some 1, none, some 0]
          { is_open := true, lines := [['a', 'b'], ['c'], ['d', 'e']], bad := false } []
        = some (input', out)
      ∧ out.length = [['a', 'b'], ['c'], ['d', 'e']].length
      ∧ ∀ (i : Nat) (line : Str), [['a', 'b'], ['c'], ['d', 'e']][i]? = some line →
          out[i]? = some (normalize
            (char_tokenizer.Decode (char_tokenizer.Encode line).reverse) ++ ['\n']) :=
  ⟨by decide,
   output_lines_in_input_order char_tokenizer (fun _ tokens => ⟨tokens.reverse⟩)
     (make_options 256) 1 2 (by decide) [none, none, some 1, none, some 0]
     [['a', 'b'], ['c'], ['d', 'e']]⟩

/-- C7 as stated fails: with an input file that cannot be opened the run
returns normally with an empty output, and with a read error after the first
line it returns normally with that one line. -/
theorem input_failure_not_reported :
    (main (sample_world Device.CPU true true [] ⟨false, [], false⟩) 4).outcome
        = Outcome.returned
      ∧ (main (sample_world Device.CPU true true [] ⟨false, [], false⟩) 4).out_file = some []
      ∧ (main (sample_world Device.CPU true true [] ⟨true, [['a', 'b']], true⟩) 4).outcome
        = Outcome.returned
      ∧ (main (sample_world Device.CPU true true [] ⟨true, [['a', 'b']], true⟩) 4).out_file
        = some [['b', 'a', '\n']] := by
  decide

/-- C7, amended: an input stream that cannot be opened, or whose reads fail,
makes the reader hook return false exactly as the end of the input does: with
an initialised tokenizer and at least one replica the run raises nothing and
returns with one record per line read before the failure (none when the stream
is not open), exactly the outcome for the same lines followed by the end of the
file. -/
theorem input_failure_is_end_of_input (w : World) (num_cores : Int)
    (h1 : w.sp_load_ok = true)
    (h2 : w.sp_set_vocabulary_ok (get_vocabulary_tokens w.source_vocabulary) = true)
    (hrep : 0 < (select_profile w.device num_cores).num_replicas)
    (hfail : w.in_file.is_open = false ∨ w.in_file.bad = true) :
    reader w.sp_processor { w.in_file with lines := [] } = none
      ∧ (main w num_cores).outcome = Outcome.returned
      ∧ (main w num_cores).out_file = some ((readable w.in_file).map
          (output_line w.sp_processor w.translate
            (make_options (select_profile w.device num_cores).max_batch_size)))
      ∧ (w.in_file.is_open = false → (main w num_cores).out_file = some [])
      ∧ (main w num_cores).outcome
          = (main { w with in_file := ⟨true, readable w.in_file, false⟩ } num_cores).outcome
      ∧ (main w num_cores).out_file
          = (main { w with in_file := ⟨true, readable w.in_file, false⟩ } num_cores).out_file := by
  obtain ⟨ho, hf⟩ := main_returns w num_cores h1 h2 hrep
  obtain ⟨ho', hf'⟩ := main_returns { w with in_file := ⟨true, readable w.in_file, false⟩ }
    num_cores h1 h2 hrep
  refine ⟨?_, ho, hf, ?_, ?_, ?_⟩
  · rcases hfail with h | _
    · simp [reader, getline, h]
    · simp [reader, getline]
  · intro hclosed
    rw [hf]
    simp [readable, hclosed]
  · rw [ho, ho']
  · rw [hf, hf']
    simp [readable]

/-- C7, amended, on a stream whose second read fails: the run returns with the
record of the first line. -/
theorem input_failure_is_end_of_input_witness :
    (main (sample_world Device.CPU true true [none, some 0] ⟨true, [['a', 'b']], true⟩) 4).outcome
        = Outcome.returned
      ∧ (main (sample_world Device.CPU true true [none, some 0] ⟨true, [['a', 'b']], true⟩)
          4).out_file
        = some ((readable ⟨true, [['a', 'b']], true⟩).map
            (output_line char_tokenizer (fun _ tokens => ⟨tokens.reverse⟩) (make_options 256))) :=
  ⟨(input_failure_is_end_of_input
      (sample_world Device.CPU true true [none, some 0] ⟨true, [['a', 'b']], true⟩) 4 rfl rfl
      (by decide) (Or.inr rfl)).2.1,
   (input_failure_is_end_of_input
      (sample_world Device.CPU true true [none, some 0] ⟨true, [['a', 'b']], true⟩) 4 rfl rfl
      (by decide) (Or.inr rfl)).2.2.1⟩

end Wngt2020
